import Mathlib

/-!
Verification development for `helm_llama.py`, a batch-inference harness that
loads a sharded LLaMA checkpoint, builds batched prompts from a dataset,
invokes a generation routine per batch, truncates each generated output at the
first newline, accumulates results in a dict keyed by instance id, and writes
the dict to a JSON file at the end of the run.

The script is shallowly embedded below.  External collaborators (the model
runtime, the tokenizer, the dataset helpers `get_helm_data_list`,
`get_msmacro_data_list`, `isolate_output`, `get_prompt_map`,
`helm_dataset_map`, `get_helm_data_name`, and the filesystem glob) are
abstracted as unconstrained function fields of an `Env` structure; the script's
own control flow, string processing, dict accumulation, console printing,
and file output are modelled exactly.  Side effects are recorded as an explicit
trace of `Effect` values; Python exceptions (the shard-count `assert` and
`IndexError`) are modelled with `Except Err`.
-/

namespace HelmLlama

/-- One record of a batch, as consumed at lines 117-118 of `helm_llama.py`:
`d["input"]` is the prompt text, `d["instance_id"]` its identifier. -/
structure Record where
  input : List Char
  instance_id : String
  deriving DecidableEq, Repr

/-- The accumulating output dictionary `output_dict` (line 115): a Python dict
from instance id to generated text, modelled as an association list in
insertion order with unique keys. -/
abbrev Dict := List (String × List Char)

/-- Python `out.find("\n")` for a single-character needle (line 132): index of
the first occurrence, or `-1` when absent. -/
def pyFindChar (c : Char) : List Char → Int
  | [] => -1
  | a :: l =>
    if a = c then 0
    else
      let r := pyFindChar c l
      if r = -1 then -1 else r + 1

/-- Lines 132-134 of `helm_llama.py`:
`truncate = out.find("\n"); if truncate != -1: out = out[0: truncate]`. -/
def truncNewline (out : List Char) : List Char :=
  let truncate := pyFindChar '\n' out
  if truncate ≠ -1 then out.take truncate.toNat else out

/-- Python dict assignment `d[k] = v` on an association list whose keys are
unique (the only states reachable from the empty dict): if `k` is present its
value is updated in place, otherwise `(k, v)` is appended at the end, matching
Python dict insertion-order semantics. -/
def dictInsert : Dict → String → List Char → Dict
  | [], k, v => [(k, v)]
  | q :: qs, k, v => if q.1 = k then (k, v) :: qs else q :: dictInsert qs k v

/-- Python dict lookup `d[k]`, as an `Option`. -/
def lookup (d : Dict) (k : String) : Option (List Char) :=
  (d.find? (fun q => q.1 = k)).map Prod.snd

/-- Concatenation of a list of lists (used to flatten the batch structure). -/
def concatAll : List (List α) → List α
  | [] => []
  | x :: xs => x ++ concatAll xs

/-- Python list indexing `l[i]`, including negative indices, as an `Option`
(`none` models `IndexError`). -/
def pyIndex (l : List α) (i : Int) : Option α :=
  if 0 ≤ i then l[i.toNat]?
  else if -(l.length : Int) ≤ i then l[((l.length : Int) + i).toNat]?
  else none

/-- Lexicographic comparison of character lists by code point, the order
Python uses to compare strings. -/
def charListLe : List Char → List Char → Bool
  | [], _ => true
  | _ :: _, [] => false
  | a :: as, b :: bs =>
    if a.val < b.val then true
    else if b.val < a.val then false
    else charListLe as bs

/-- Python string comparison `a <= b` (lexicographic by code point). -/
def strLe (a b : String) : Bool := charListLe a.data b.data

/-- Insertion of a string into a sorted list of strings. -/
def insertSorted (x : String) : List String → List String
  | [] => [x]
  | y :: ys => if strLe x y then x :: y :: ys else y :: insertSorted x ys

/-- Python `sorted(...)` on a list of strings (the checkpoint paths of
line 43), via insertion sort in the lexicographic string order. -/
def sortStrings (l : List String) : List String := l.foldr insertSorted []

/-- Python exceptions the script itself can raise: the `assert` at
lines 44-46 and `IndexError` from list subscripts. -/
inductive Err where
  | assertionError (msg : String)
  | indexError
  deriving DecidableEq, Repr

/-- One observable side effect of the script.  `printConsole` is a `print`
reaching the real stdout; `printNull` is a `print` swallowed by the
`sys.stdout = open(os.devnull, "w")` redirection of line 85; `genCall`
records one invocation of `generator.generate` with the arguments passed at
lines 119-121; `writeFile` records the `json.dump` at lines 144-145. -/
inductive Effect where
  | printConsole (s : String)
  | printNull (s : String)
  | genCall (prompts : List (List Char)) (max_gen_len : Nat)
      (temperature : ℚ) (top_p : ℚ)
  | writeFile (path : String) (content : Dict)
  deriving DecidableEq, Repr

/-- A `print(...)` call: reaches the console unless stdout was redirected. -/
def pr (silenced : Bool) (s : String) : Effect :=
  if silenced then Effect.printNull s else Effect.printConsole s

def isWriteFile : Effect → Bool
  | Effect.writeFile _ _ => true
  | _ => false

def isGenCall : Effect → Bool
  | Effect.genCall _ _ _ _ => true
  | _ => false

def isConsolePrint : Effect → Bool
  | Effect.printConsole _ => true
  | _ => false

/-- The process environment and the external collaborator functions the
script delegates to.  `LOCAL_RANK` / `WORLD_SIZE` are the (parsed) environment
variables, `none` when unset; `MODEL_SIZE` is read at line 111 (assumed set).
`glob_pth` models `Path(ckpt_dir).glob("*.pth")`; `generate` models
`generator.generate(prompts, max_gen_len, temperature, top_p)`;
`isolate_output` models `helm_process.isolate_output(prompts, results)`; the
remaining fields model the helpers of `get_datasets` (each data-list helper
takes the dataset path, the prompt text, `k`, the tokenizer path,
`max_seq_len`, `num_examples`, `batch_size` and `num_instances`). -/
structure Env where
  LOCAL_RANK : Option Int
  WORLD_SIZE : Option Int
  MODEL_SIZE : String
  glob_pth : String → List String
  generate : List (List Char) → Nat → ℚ → ℚ → List (List Char)
  isolate_output : List (List Char) → List (List Char) → List (List Char)
  helm_dataset_map : Nat → String
  get_prompt_map : Nat → List Char
  get_helm_data_name : String → String
  get_helm_data_list :
    String → List Char → Nat → String → Nat → Nat → Nat → Nat → List (List Record)
  get_msmacro_data_list :
    String → List Char → Nat → String → Nat → Nat → Nat → Nat → List (List Record)

/-- The CLI arguments of `main` (lines 68-81). -/
structure Args where
  ckpt_dir : String
  tokenizer_path : String
  temperature : ℚ
  top_p : ℚ
  max_seq_len : Nat
  max_batch_size : Nat
  prepend_text : List Char
  k : Nat
  num_examples : Nat
  max_new_tokens : Nat
  data_id : Nat
  p_id : Nat
  num_instances : Nat

/-- Lines 21-31: `setup_model_parallel` reads `LOCAL_RANK` and `WORLD_SIZE`
with default `-1` and returns them (the collective-group join, device pin and
seeding are external and effect-free for our purposes). -/
def setup_model_parallel (env : Env) : Int × Int :=
  (env.LOCAL_RANK.getD (-1), env.WORLD_SIZE.getD (-1))

/-- Lines 34-65: `load` sorts the `*.pth` shard paths, asserts that their
count equals `world_size`, and selects `checkpoints[local_rank]`.  The actual
weight loading, tokenizer and model construction are external; `load` returns
the selected shard path.  (The `print("Loading")` / `print("Loaded in ...")`
calls happen after these two statements and before `load` returns; they are
emitted by `main`'s success path below, which preserves the trace.) -/
def load (pth_files : List String) (local_rank world_size : Int) :
    Except Err String :=
  let checkpoints := sortStrings pth_files
  if world_size = (checkpoints.length : Int) then
    match pyIndex checkpoints local_rank with
    | some ckpt_path => Except.ok ckpt_path
    | none => Except.error Err.indexError
  else
    Except.error (Err.assertionError
      ("Loading a checkpoint for MP=" ++ toString checkpoints.length ++
        " but world size is " ++ toString world_size))

/-- The hardcoded dataset directory of line 100. -/
def dataset_dir : String :=
  "/storage1/chenguangwang/Active/llama_system/helm_datatset_full/"

/-- The hardcoded output directory of line 142. -/
def output_dir : String :=
  "/storage1/chenguangwang/Active/llama_system/fs_back"

/-- Lines 95-107: resolve the dataset file from `data_id`, overwrite
`prepend_text` with `get_prompt_map()[p_id]` (line 98), and build the batched
input list, choosing the MS-MARCO helper when the data name is
`msmarco_regular` or `msmarco_trec`.  Note the CLI `prepend_text` argument is
never consulted: line 98 replaces it before first use. -/
def batchesOf (env : Env) (a : Args) : List (List Record) :=
  let dataset_file := env.helm_dataset_map a.data_id
  let prepend_text := env.get_prompt_map a.p_id
  let dataset_path := dataset_dir ++ dataset_file
  let data_name := env.get_helm_data_name dataset_file
  if data_name = "msmarco_regular" ∨ data_name = "msmarco_trec" then
    env.get_msmacro_data_list dataset_path prepend_text a.k a.tokenizer_path
      a.max_seq_len a.num_examples a.max_batch_size a.num_instances
  else
    env.get_helm_data_list dataset_path prepend_text a.k a.tokenizer_path
      a.max_seq_len a.num_examples a.max_batch_size a.num_instances

/-- `data_name` as computed at line 103. -/
def dataNameOf (env : Env) (a : Args) : String :=
  env.get_helm_data_name (env.helm_dataset_map a.data_id)

/-- The output file path of line 144:
`f'{output_dir}/{data_name}_{p_id}_{k}_samples{num_instances}.json'`. -/
def outputPath (env : Env) (a : Args) : String :=
  output_dir ++ "/" ++ dataNameOf env a ++ "_" ++ toString a.p_id ++ "_" ++
    toString a.k ++ "_samples" ++ toString a.num_instances ++ ".json"

/-- The dict updates performed by one loop iteration (lines 117-135): zip the
batch's instance ids with `isolate_output(prompts, results)`, truncate each
output at the first newline, and store it under its id. -/
def dictStep (gen : List (List Char) → Nat → ℚ → ℚ → List (List Char))
    (iso : List (List Char) → List (List Char) → List (List Char))
    (mnt : Nat) (t p : ℚ) (d : Dict) (b : List Record) : Dict :=
  let prompts := b.map Record.input
  let results := gen prompts mnt t p
  let outputs := iso prompts results
  ((b.map Record.instance_id).zip outputs).foldl
    (fun acc q => dictInsert acc q.1 (truncNewline q.2)) d

/-- One iteration of the generation loop (lines 116-135), producing the
effects it emits, the updated running count `i`, and the updated dict.
`gen` is `generator.generate`, `iso` is `isolate_output`.  `results[0]` at
line 125 raises `IndexError` when `results` is empty and the `i == 0` branch
is taken. -/
def stepBatch (gen : List (List Char) → Nat → ℚ → ℚ → List (List Char))
    (iso : List (List Char) → List (List Char) → List (List Char))
    (silenced : Bool) (mnt : Nat) (t p : ℚ)
    (i : Nat) (output_dict : Dict) (dict_list : List Record) :
    Except Err (List Effect × Nat × Dict) :=
  let prompts := dict_list.map Record.input
  let instance_ids := dict_list.map Record.instance_id
  let results := gen prompts mnt t p
  let firstPrints : Except Err (List Effect) :=
    if i = 0 then
      match results with
      | [] => Except.error Err.indexError
      | r :: _ =>
        Except.ok [pr silenced ("instance_id: " ++ toString instance_ids),
          pr silenced ("Result (including output): " ++ String.mk r)]
    else Except.ok []
  match firstPrints with
  | Except.error e => Except.error e
  | Except.ok prints1 =>
    let i2 := i + dict_list.length
    let prints2 : List Effect :=
      if i2 % 4 = 0 then [pr silenced ("i: " ++ toString i2)] else []
    let d2 := dictStep gen iso mnt t p output_dict dict_list
    Except.ok (Effect.genCall prompts mnt t p :: (prints1 ++ prints2), i2, d2)

/-- The generation loop `for dict_list in input_list_batched` (line 116):
sequential, each batch fully processed before the next. -/
def runLoop (gen : List (List Char) → Nat → ℚ → ℚ → List (List Char))
    (iso : List (List Char) → List (List Char) → List (List Char))
    (silenced : Bool) (mnt : Nat) (t p : ℚ) :
    List (List Record) → Nat → Dict → Except Err (List Effect × Nat × Dict)
  | [], i, d => Except.ok ([], i, d)
  | b :: bs, i, d =>
    match stepBatch gen iso silenced mnt t p i d b with
    | Except.error e => Except.error e
    | Except.ok (tr1, i1, d1) =>
      match runLoop gen iso silenced mnt t p bs i1 d1 with
      | Except.error e => Except.error e
      | Except.ok (tr2, i2, d2) => Except.ok (tr1 ++ tr2, i2, d2)

/-- All prints of `main` outside the loop, in program order (lines 86-87, the
two prints inside `load`, and lines 109-111), each subject to the devnull
redirection of lines 84-85. -/
def preTraceOf (env : Env) (a : Args) : List Effect :=
  let local_rank := (setup_model_parallel env).1
  let world_size := (setup_model_parallel env).2
  let silenced := decide (local_rank > 0)
  [pr silenced ("local_rank is " ++ toString local_rank),
    pr silenced ("world_size is " ++ toString world_size),
    pr silenced "Loading",
    pr silenced "Loaded",
    pr silenced ("data name: " ++ dataNameOf env a),
    pr silenced ("len of data: " ++ toString (batchesOf env a).length),
    pr silenced ("Model name: " ++ env.MODEL_SIZE)]

/-- Lines 68-145: the whole of `main`, returning the full ordered effect
trace and the final `output_dict` (which the trailing `writeFile` effect
serializes), or the uncaught exception that aborted the run. -/
def main (env : Env) (a : Args) : Except Err (List Effect × Dict) :=
  let local_rank := (setup_model_parallel env).1
  let world_size := (setup_model_parallel env).2
  let silenced := decide (local_rank > 0)
  match load (env.glob_pth a.ckpt_dir) local_rank world_size with
  | Except.error e => Except.error e
  | Except.ok _ckpt_path =>
    match runLoop env.generate env.isolate_output silenced a.max_new_tokens
        a.temperature a.top_p (batchesOf env a) 0 [] with
    | Except.error e => Except.error e
    | Except.ok (loopTr, _i, output_dict) =>
      Except.ok (preTraceOf env a ++ loopTr ++
        [Effect.writeFile (outputPath env a) output_dict], output_dict)

/-! ### Basic facts about the effect predicates -/

@[simp] theorem isWriteFile_pr (silenced : Bool) (s : String) :
    isWriteFile (pr silenced s) = false := by
  cases silenced <;> rfl

@[simp] theorem isGenCall_pr (silenced : Bool) (s : String) :
    isGenCall (pr silenced s) = false := by
  cases silenced <;> rfl

@[simp] theorem isConsolePrint_pr_true (s : String) :
    isConsolePrint (pr true s) = false := rfl

@[simp] theorem isWriteFile_genCall (ps : List (List Char)) (n : Nat) (t p : ℚ) :
    isWriteFile (Effect.genCall ps n t p) = false := rfl

@[simp] theorem isGenCall_genCall (ps : List (List Char)) (n : Nat) (t p : ℚ) :
    isGenCall (Effect.genCall ps n t p) = true := rfl

@[simp] theorem isConsolePrint_genCall (ps : List (List Char)) (n : Nat) (t p : ℚ) :
    isConsolePrint (Effect.genCall ps n t p) = false := rfl

@[simp] theorem isWriteFile_writeFile (path : String) (c : Dict) :
    isWriteFile (Effect.writeFile path c) = true := rfl

@[simp] theorem isGenCall_writeFile (path : String) (c : Dict) :
    isGenCall (Effect.writeFile path c) = false := rfl

@[simp] theorem isConsolePrint_writeFile (path : String) (c : Dict) :
    isConsolePrint (Effect.writeFile path c) = false := rfl

/-! ### The newline truncation of lines 132-134 -/

theorem pyFindChar_sign (c : Char) :
    ∀ l : List Char, pyFindChar c l = -1 ∨ 0 ≤ pyFindChar c l
  | [] => Or.inl rfl
  | a :: l => by
    by_cases h : a = c
    · right; simp [pyFindChar, h]
    · rcases pyFindChar_sign c l with h2 | h2
      · left; simp [pyFindChar, h, h2]
      · right
        simp only [pyFindChar, h, if_false]
        split <;> omega

/-- The in-place truncation computes exactly the longest newline-free
initial segment. -/
theorem truncNewline_eq_takeWhile :
    ∀ out : List Char, truncNewline out = out.takeWhile (fun ch => ch ≠ '\n')
  | [] => rfl
  | a :: l => by
    have ih := truncNewline_eq_takeWhile l
    by_cases h : a = '\n'
    · subst h
      simp [truncNewline, pyFindChar]
    · have hTW : (a :: l).takeWhile (fun ch => ch ≠ '\n') =
        a :: l.takeWhile (fun ch => ch ≠ '\n') := by
        simp [List.takeWhile_cons, h]
      rcases pyFindChar_sign '\n' l with h2 | h2
      · have hl : truncNewline l = l := by simp [truncNewline, h2]
        have hFind : pyFindChar '\n' (a :: l) = -1 := by
          simp [pyFindChar, h, h2]
        have hLHS : truncNewline (a :: l) = a :: l := by
          simp [truncNewline, hFind]
        rw [hLHS, hTW, ← ih, hl]
      · have hne : pyFindChar '\n' l ≠ -1 := by omega
        have hl : truncNewline l = l.take (pyFindChar '\n' l).toNat := by
          simp [truncNewline, hne]
        have hFind : pyFindChar '\n' (a :: l) = pyFindChar '\n' l + 1 := by
          simp [pyFindChar, h, hne]
        have hnz : pyFindChar '\n' l + 1 ≠ -1 := by omega
        have htn : (pyFindChar '\n' l + 1).toNat = (pyFindChar '\n' l).toNat + 1 := by
          omega
        have hLHS : truncNewline (a :: l) = a :: l.take (pyFindChar '\n' l).toNat := by
          simp [truncNewline, hFind, hnz, htn]
        rw [hLHS, hTW, ← ih, hl]

/-- No truncated output contains a newline. -/
theorem newline_not_mem_truncNewline (out : List Char) :
    '\n' ∉ truncNewline out := by
  rw [truncNewline_eq_takeWhile]
  intro h
  have := List.mem_takeWhile_imp h
  simp at this

/-- A newline-free output is stored unchanged. -/
theorem truncNewline_of_not_mem {out : List Char} (h : '\n' ∉ out) :
    truncNewline out = out := by
  rw [truncNewline_eq_takeWhile]
  induction out with
  | nil => rfl
  | cons a l ih =>
    simp only [List.mem_cons, not_or] at h
    rw [List.takeWhile_cons,
      if_pos (by simp only [decide_eq_true_eq]; exact fun hh => h.1 hh.symm),
      ih h.2]

/-! ### The dict accumulation (`output_dict[inid] = out`, line 135) -/

theorem mem_keys_dictInsert (d : Dict) (k : String) (v : List Char) (a : String) :
    a ∈ (dictInsert d k v).map Prod.fst ↔ a ∈ d.map Prod.fst ∨ a = k := by
  induction d with
  | nil => simp [dictInsert]
  | cons q qs ih =>
    by_cases h : q.1 = k
    · subst h
      simp [dictInsert]
      tauto
    · simp only [dictInsert, if_neg h, List.map_cons, List.mem_cons, ih]
      tauto

theorem nodup_keys_dictInsert (d : Dict) (k : String) (v : List Char)
    (h : (d.map Prod.fst).Nodup) : ((dictInsert d k v).map Prod.fst).Nodup := by
  induction d with
  | nil => simp [dictInsert]
  | cons q qs ih =>
    simp only [List.map_cons, List.nodup_cons] at h
    by_cases hq : q.1 = k
    · subst hq
      simpa [dictInsert, List.nodup_cons] using h
    · simp only [dictInsert, if_neg hq, List.map_cons, List.nodup_cons]
      refine ⟨fun hmem => ?_, ih h.2⟩
      rw [mem_keys_dictInsert] at hmem
      rcases hmem with hmem | hmem
      · exact h.1 hmem
      · exact hq hmem

theorem lookup_cons (q : String × List Char) (d : Dict) (a : String) :
    lookup (q :: d) a = if q.1 = a then some q.2 else lookup d a := by
  by_cases h : q.1 = a <;> simp [lookup, List.find?_cons, h]

theorem lookup_dictInsert (d : Dict) (k : String) (v : List Char) (a : String) :
    lookup (dictInsert d k v) a = if k = a then some v else lookup d a := by
  induction d with
  | nil =>
    show lookup [(k, v)] a = _
    rw [lookup_cons]
  | cons q qs ih =>
    by_cases hq : q.1 = k
    · rw [dictInsert, if_pos hq, lookup_cons, lookup_cons]
      by_cases h : k = a
      · simp [h]
      · rw [if_neg h, if_neg h, if_neg (by rw [hq]; exact h)]
    · rw [dictInsert, if_neg hq, lookup_cons, lookup_cons, ih]
      by_cases h : q.1 = a
      · have hka : ¬ k = a := fun hk => hq (by rw [hk, ← h])
        rw [if_pos h, if_pos h, if_neg hka]
      · rw [if_neg h, if_neg h]

theorem mem_dictInsert (d : Dict) (k : String) (v : List Char)
    (q : String × List Char) (h : q ∈ dictInsert d k v) :
    q ∈ d ∨ q = (k, v) := by
  induction d with
  | nil => simpa [dictInsert] using h
  | cons r rs ih =>
    by_cases hr : r.1 = k
    · simp only [dictInsert, if_pos hr, List.mem_cons] at h
      rcases h with h | h
      · exact Or.inr h
      · exact Or.inl (List.mem_cons_of_mem _ h)
    · simp only [dictInsert, if_neg hr, List.mem_cons] at h
      rcases h with h | h
      · exact Or.inl (h ▸ List.mem_cons_self _ _)
      · rcases ih h with h2 | h2
        · exact Or.inl (List.mem_cons_of_mem _ h2)
        · exact Or.inr h2

/-- The inner `for inid, out in zip(...)` accumulation (lines 131-135), on an
already-truncated list of `(instance id, text)` pairs. -/
def insFold (ps : List (String × List Char)) (d : Dict) : Dict :=
  ps.foldl (fun acc q => dictInsert acc q.1 q.2) d

theorem insFold_nil (d : Dict) : insFold [] d = d := rfl

theorem insFold_cons (q : String × List Char) (ps : List (String × List Char))
    (d : Dict) : insFold (q :: ps) d = insFold ps (dictInsert d q.1 q.2) := rfl

theorem insFold_append (ps qs : List (String × List Char)) (d : Dict) :
    insFold (ps ++ qs) d = insFold qs (insFold ps d) :=
  List.foldl_append _ _ _ _

theorem nodup_keys_insFold (ps : List (String × List Char)) :
    ∀ d : Dict, (d.map Prod.fst).Nodup → ((insFold ps d).map Prod.fst).Nodup := by
  induction ps with
  | nil => exact fun d h => h
  | cons q ps ih =>
    intro d h
    rw [insFold_cons]
    exact ih _ (nodup_keys_dictInsert _ _ _ h)

theorem mem_keys_insFold (ps : List (String × List Char)) :
    ∀ (d : Dict) (a : String),
      a ∈ (insFold ps d).map Prod.fst ↔
        a ∈ d.map Prod.fst ∨ a ∈ ps.map Prod.fst := by
  induction ps with
  | nil => simp [insFold_nil]
  | cons q ps ih =>
    intro d a
    rw [insFold_cons, ih]
    simp only [mem_keys_dictInsert, List.map_cons, List.mem_cons]
    tauto

theorem or_some_none (x : Option (List Char)) : x.or none = x := by
  cases x <;> rfl

theorem lookup_insFold (ps : List (String × List Char)) :
    ∀ (d : Dict) (a : String),
      lookup (insFold ps d) a =
        ((ps.reverse.find? (fun q => q.1 = a)).map Prod.snd).or (lookup d a) := by
  induction ps with
  | nil => simp [insFold_nil]
  | cons q ps ih =>
    intro d a
    rw [insFold_cons, ih]
    simp only [List.reverse_cons, List.find?_append]
    rw [lookup_dictInsert]
    by_cases hfind : (ps.reverse.find? (fun q => q.1 = a)).isSome
    · obtain ⟨r, hr⟩ := Option.isSome_iff_exists.mp hfind
      rw [hr]
      rfl
    · rw [Option.not_isSome_iff_eq_none] at hfind
      rw [hfind]
      by_cases h : q.1 = a
      · simp [List.find?, h]
      · simp [List.find?, h]

theorem mem_insFold (ps : List (String × List Char)) :
    ∀ (d : Dict) (q : String × List Char), q ∈ insFold ps d →
      q ∈ d ∨ q.2 ∈ ps.map Prod.snd := by
  induction ps with
  | nil => exact fun d q h => Or.inl h
  | cons r ps ih =>
    intro d q h
    rw [insFold_cons] at h
    rcases ih _ _ h with h2 | h2
    · rcases mem_dictInsert _ _ _ _ h2 with h3 | h3
      · exact Or.inl h3
      · right
        rw [h3]
        exact List.mem_cons_self _ _
    · right
      exact List.mem_cons_of_mem _ h2

/-! ### From the batch loop to flattened pairs -/

/-- The `(instance id, truncated output)` pairs one batch contributes, in
order (lines 117-135). -/
def pairsOfBatch (gen : List (List Char) → Nat → ℚ → ℚ → List (List Char))
    (iso : List (List Char) → List (List Char) → List (List Char))
    (mnt : Nat) (t p : ℚ) (b : List Record) : List (String × List Char) :=
  ((b.map Record.instance_id).zip
      (iso (b.map Record.input) (gen (b.map Record.input) mnt t p))).map
    (fun q => (q.1, truncNewline q.2))

/-- All `(instance id, truncated output)` pairs of a run, in batch iteration
order. -/
def pairsOf (gen : List (List Char) → Nat → ℚ → ℚ → List (List Char))
    (iso : List (List Char) → List (List Char) → List (List Char))
    (mnt : Nat) (t p : ℚ) (bs : List (List Record)) :
    List (String × List Char) :=
  concatAll (bs.map (pairsOfBatch gen iso mnt t p))

theorem dictStep_eq_insFold (gen : List (List Char) → Nat → ℚ → ℚ → List (List Char))
    (iso : List (List Char) → List (List Char) → List (List Char))
    (mnt : Nat) (t p : ℚ) (d : Dict) (b : List Record) :
    dictStep gen iso mnt t p d b = insFold (pairsOfBatch gen iso mnt t p b) d := by
  unfold dictStep insFold pairsOfBatch
  rw [List.foldl_map]

theorem foldl_dictStep_eq_insFold
    (gen : List (List Char) → Nat → ℚ → ℚ → List (List Char))
    (iso : List (List Char) → List (List Char) → List (List Char))
    (mnt : Nat) (t p : ℚ) (bs : List (List Record)) :
    ∀ d : Dict,
      bs.foldl (dictStep gen iso mnt t p) d =
        insFold (pairsOf gen iso mnt t p bs) d := by
  induction bs with
  | nil => intro d; rfl
  | cons b bs ih =>
    intro d
    show bs.foldl _ (dictStep gen iso mnt t p d b) = _
    rw [ih, dictStep_eq_insFold]
    show _ = insFold (pairsOfBatch gen iso mnt t p b ++ pairsOf gen iso mnt t p bs) d
    rw [insFold_append]

/-- With the external contract that `isolate_output` returns one output per
prompt, the keys of a batch's pairs are exactly its instance ids. -/
theorem map_fst_pairsOfBatch
    (gen : List (List Char) → Nat → ℚ → ℚ → List (List Char))
    (iso : List (List Char) → List (List Char) → List (List Char))
    (mnt : Nat) (t p : ℚ) (b : List Record)
    (hlen : (iso (b.map Record.input) (gen (b.map Record.input) mnt t p)).length =
      (b.map Record.input).length) :
    (pairsOfBatch gen iso mnt t p b).map Prod.fst = b.map Record.instance_id := by
  unfold pairsOfBatch
  rw [List.map_map]
  have : (Prod.fst ∘ fun q : String × List Char => (q.1, truncNewline q.2)) =
      Prod.fst := rfl
  rw [this, List.map_fst_zip]
  rw [hlen]
  simp

theorem map_concatAll {α β : Type} (f : α → β) :
    ∀ l : List (List α), (concatAll l).map f = concatAll (l.map (List.map f))
  | [] => rfl
  | x :: xs => by
    show (x ++ concatAll xs).map f = x.map f ++ concatAll (xs.map (List.map f))
    rw [List.map_append, map_concatAll f xs]

theorem mem_concatAll {α : Type} (a : α) :
    ∀ l : List (List α), a ∈ concatAll l ↔ ∃ x ∈ l, a ∈ x
  | [] => by simp [concatAll]
  | x :: xs => by
    show a ∈ x ++ concatAll xs ↔ _
    rw [List.mem_append, mem_concatAll a xs]
    simp

/-! ### Sorting and Python indexing (lines 43-47) -/

theorem length_insertSorted (x : String) :
    ∀ l : List String, (insertSorted x l).length = l.length + 1
  | [] => rfl
  | y :: ys => by
    unfold insertSorted
    split
    · rfl
    · show (y :: insertSorted x ys).length = _
      rw [List.length_cons, length_insertSorted x ys, List.length_cons]

theorem length_sortStrings :
    ∀ l : List String, (sortStrings l).length = l.length
  | [] => rfl
  | x :: xs => by
    show (insertSorted x (sortStrings xs)).length = _
    rw [length_insertSorted, length_sortStrings xs, List.length_cons]

theorem pyIndex_isSome {α : Type} (l : List α) (i : Int)
    (h1 : -(l.length : Int) ≤ i) (h2 : i < (l.length : Int)) :
    (pyIndex l i).isSome = true := by
  unfold pyIndex
  by_cases h0 : 0 ≤ i
  · rw [if_pos h0, List.getElem?_eq_getElem (by omega)]
    rfl
  · rw [if_neg h0, if_pos h1, List.getElem?_eq_getElem (by omega)]
    rfl

theorem pyIndex_neg_one {α : Type} (l : List α) (h : l ≠ []) :
    pyIndex l (-1) = l.getLast? := by
  unfold pyIndex
  have hlen : 1 ≤ l.length := List.length_pos.mpr h
  rw [if_neg (by omega), if_pos (by omega : -(l.length : Int) ≤ -1)]
  have : ((l.length : Int) + -1).toNat = l.length - 1 := by omega
  rw [this, List.getLast?_eq_getElem?]

/-! ### Structure of the loop trace -/

theorem filter_if_pr (f : Effect → Bool) (si : Bool)
    (hf : ∀ s, f (pr si s) = false) (n : Nat) (s : String) :
    List.filter f (if n % 4 = 0 then [pr si s] else []) = [] := by
  split
  · simp [hf]
  · rfl

theorem stepBatch_ok
    {gen : List (List Char) → Nat → ℚ → ℚ → List (List Char)}
    {iso : List (List Char) → List (List Char) → List (List Char)}
    {si : Bool} {mnt : Nat} {t p : ℚ} {i : Nat} {d : Dict} {b : List Record}
    {tr1 : List Effect} {i1 : Nat} {d1 : Dict}
    (h : stepBatch gen iso si mnt t p i d b = Except.ok (tr1, i1, d1)) :
    tr1.filter isWriteFile = [] ∧
    tr1.filter isGenCall = [Effect.genCall (b.map Record.input) mnt t p] ∧
    (si = true → tr1.filter isConsolePrint = []) ∧
    d1 = dictStep gen iso mnt t p d b := by
  have hCP : ∀ s : String, isConsolePrint (pr true s) = false :=
    fun s => isConsolePrint_pr_true s
  unfold stepBatch at h
  dsimp only at h
  by_cases hi : i = 0
  · rw [if_pos hi] at h
    cases hres : gen (List.map Record.input b) mnt t p with
    | nil =>
      rw [hres] at h
      exact absurd h (by simp)
    | cons r rs =>
      rw [hres] at h
      dsimp only at h
      rw [Except.ok.injEq, Prod.mk.injEq, Prod.mk.injEq] at h
      obtain ⟨htr, _, hd⟩ := h
      subst htr
      subst hd
      refine ⟨?_, ?_, fun hsi => ?_, rfl⟩
      · simp [List.filter_cons, List.filter_append,
          filter_if_pr isWriteFile si (isWriteFile_pr si)]
      · simp [List.filter_cons, List.filter_append,
          filter_if_pr isGenCall si (isGenCall_pr si)]
      · subst hsi
        simp [List.filter_cons, List.filter_append, hCP,
          filter_if_pr isConsolePrint true isConsolePrint_pr_true]
  · rw [if_neg hi] at h
    dsimp only at h
    rw [Except.ok.injEq, Prod.mk.injEq, Prod.mk.injEq] at h
    obtain ⟨htr, _, hd⟩ := h
    subst htr
    subst hd
    refine ⟨?_, ?_, fun hsi => ?_, rfl⟩
    · simp [List.filter_cons, List.filter_append,
        filter_if_pr isWriteFile si (isWriteFile_pr si)]
    · simp [List.filter_cons, List.filter_append,
        filter_if_pr isGenCall si (isGenCall_pr si)]
    · subst hsi
      simp [List.filter_cons, List.filter_append, hCP,
        filter_if_pr isConsolePrint true isConsolePrint_pr_true]

theorem runLoop_ok
    {gen : List (List Char) → Nat → ℚ → ℚ → List (List Char)}
    {iso : List (List Char) → List (List Char) → List (List Char)}
    {si : Bool} {mnt : Nat} {t p : ℚ} :
    ∀ {bs : List (List Record)} {i : Nat} {d : Dict} {loopTr : List Effect}
      {i2 : Nat} {d2 : Dict},
      runLoop gen iso si mnt t p bs i d = Except.ok (loopTr, i2, d2) →
      loopTr.filter isWriteFile = [] ∧
      loopTr.filter isGenCall =
        bs.map (fun b => Effect.genCall (b.map Record.input) mnt t p) ∧
      (si = true → loopTr.filter isConsolePrint = []) ∧
      d2 = bs.foldl (dictStep gen iso mnt t p) d := by
  intro bs
  induction bs with
  | nil =>
    intro i d loopTr i2 d2 h
    rw [runLoop, Except.ok.injEq, Prod.mk.injEq, Prod.mk.injEq] at h
    obtain ⟨htr, _, hd⟩ := h
    subst htr
    subst hd
    exact ⟨rfl, rfl, fun _ => rfl, rfl⟩
  | cons b bs ih =>
    intro i d loopTr i2 d2 h
    rw [runLoop] at h
    cases hstep : stepBatch gen iso si mnt t p i d b with
    | error e =>
      rw [hstep] at h
      exact absurd h (by simp)
    | ok r1 =>
      obtain ⟨tr1, i1, d1⟩ := r1
      rw [hstep] at h
      dsimp only at h
      cases hrec : runLoop gen iso si mnt t p bs i1 d1 with
      | error e =>
        rw [hrec] at h
        exact absurd h (by simp)
      | ok r2 =>
        obtain ⟨tr2, i2b, d2b⟩ := r2
        rw [hrec] at h
        dsimp only at h
        rw [Except.ok.injEq, Prod.mk.injEq, Prod.mk.injEq] at h
        obtain ⟨htr, _, hd⟩ := h
        subst htr
        subst hd
        obtain ⟨s1, s2, s3, s4⟩ := stepBatch_ok hstep
        obtain ⟨r1f, r2f, r3f, r4f⟩ := ih hrec
        refine ⟨?_, ?_, fun hsi => ?_, ?_⟩
        · rw [List.filter_append, s1, r1f]
          rfl
        · rw [List.filter_append, s2, r2f, List.map_cons]
          rfl
        · rw [List.filter_append, s3 hsi, r3f hsi]
          rfl
        · rw [r4f, s4]
          rfl

/-! ### Structure of the full trace of `main` -/

theorem filter_preTraceOf_isWriteFile (env : Env) (a : Args) :
    (preTraceOf env a).filter isWriteFile = [] := by
  simp [preTraceOf, List.filter_cons]

theorem filter_preTraceOf_isGenCall (env : Env) (a : Args) :
    (preTraceOf env a).filter isGenCall = [] := by
  simp [preTraceOf, List.filter_cons]

theorem filter_preTraceOf_isConsolePrint (env : Env) (a : Args)
    (h : (setup_model_parallel env).1 > 0) :
    (preTraceOf env a).filter isConsolePrint = [] := by
  have hdec : decide ((setup_model_parallel env).1 > 0) = true := by
    simp [h]
  simp [preTraceOf, hdec, List.filter_cons]

/-- Dissection of a successful run: `main` returned `ok` exactly when `load`
and the loop succeeded, and then the trace is the pre-loop prints, the loop
trace, and the one final `writeFile`, in that order. -/
theorem main_ok_cases {env : Env} {a : Args} {tr : List Effect} {d : Dict}
    (h : main env a = Except.ok (tr, d)) :
    ∃ (loopTr : List Effect) (i2 : Nat),
      runLoop env.generate env.isolate_output
        (decide ((setup_model_parallel env).1 > 0)) a.max_new_tokens
        a.temperature a.top_p (batchesOf env a) 0 [] =
        Except.ok (loopTr, i2, d) ∧
      tr = preTraceOf env a ++ loopTr ++
        [Effect.writeFile (outputPath env a) d] := by
  unfold main at h
  dsimp only at h
  cases hload : load (env.glob_pth a.ckpt_dir) (setup_model_parallel env).1
      (setup_model_parallel env).2 with
  | error e =>
    rw [hload] at h
    exact absurd h (by simp)
  | ok ckpt =>
    rw [hload] at h
    dsimp only at h
    cases hloop : runLoop env.generate env.isolate_output
        (decide ((setup_model_parallel env).1 > 0)) a.max_new_tokens
        a.temperature a.top_p (batchesOf env a) 0 [] with
    | error e =>
      rw [hloop] at h
      exact absurd h (by simp)
    | ok r =>
      obtain ⟨loopTr, i2, dct⟩ := r
      rw [hloop] at h
      dsimp only at h
      rw [Except.ok.injEq, Prod.mk.injEq] at h
      obtain ⟨htr, hd⟩ := h
      subst hd
      exact ⟨loopTr, i2, rfl, by rw [← htr, List.append_assoc]⟩

/-- Every value ever paired with an instance id went through `truncNewline`. -/
theorem snd_pairsOf_truncated
    (gen : List (List Char) → Nat → ℚ → ℚ → List (List Char))
    (iso : List (List Char) → List (List Char) → List (List Char))
    (mnt : Nat) (t p : ℚ) (bs : List (List Record)) :
    ∀ v ∈ (pairsOf gen iso mnt t p bs).map Prod.snd,
      ∃ out, v = truncNewline out := by
  intro v hv
  rw [List.mem_map] at hv
  obtain ⟨q, hq, hv2⟩ := hv
  rw [pairsOf, mem_concatAll] at hq
  obtain ⟨x, hx, hqx⟩ := hq
  rw [List.mem_map] at hx
  obtain ⟨b, _, hb⟩ := hx
  rw [← hb, pairsOfBatch, List.mem_map] at hqx
  obtain ⟨r, _, hr⟩ := hqx
  exact ⟨r.2, by rw [← hv2, ← hr]⟩

/-! ### Concrete run fixtures used by the closed witnesses -/

/-- A single-device environment with two single-record batches that share one
instance id, an identity generation routine, and an identity
`isolate_output`. -/
def testEnv : Env where
  LOCAL_RANK := some 0
  WORLD_SIZE := some 1
  MODEL_SIZE := "7B"
  glob_pth := fun _ => ["a.pth"]
  generate := fun ps _ _ _ => ps
  isolate_output := fun _ rs => rs
  helm_dataset_map := fun _ => "df"
  get_prompt_map := fun _ => []
  get_helm_data_name := fun _ => "dn"
  get_helm_data_list := fun _ _ _ _ _ _ _ _ =>
    [[⟨['x'], "a"⟩], [⟨['y', '\n', 'z'], "a"⟩]]
  get_msmacro_data_list := fun _ _ _ _ _ _ _ _ => []

/-- The CLI arguments used by the fixtures (the script's defaults, with
required paths filled in). -/
def testArgs : Args where
  ckpt_dir := "ckpt"
  tokenizer_path := "tok"
  temperature := 0
  top_p := 1
  max_seq_len := 2048
  max_batch_size := 1
  prepend_text := []
  k := 5
  num_examples := 5
  max_new_tokens := 100
  data_id := 0
  p_id := 0
  num_instances := 0

/-- The effect trace of `main testEnv testArgs`. -/
def testTr : List Effect :=
  [Effect.printConsole "local_rank is 0",
   Effect.printConsole "world_size is 1",
   Effect.printConsole "Loading",
   Effect.printConsole "Loaded",
   Effect.printConsole "data name: dn",
   Effect.printConsole "len of data: 2",
   Effect.printConsole "Model name: 7B",
   Effect.genCall [['x']] 100 0 1,
   Effect.printConsole "instance_id: [a]",
   Effect.printConsole "Result (including output): x",
   Effect.genCall [['y', '\n', 'z']] 100 0 1,
   Effect.writeFile
     "/storage1/chenguangwang/Active/llama_system/fs_back/dn_0_5_samples0.json"
     [("a", ['y'])]]

/-- The final output dict of `main testEnv testArgs`: one entry, the value
from the second (later) occurrence of id "a", truncated at its newline. -/
def testD : Dict := [("a", ['y'])]

theorem main_testEnv_eq : main testEnv testArgs = Except.ok (testTr, testD) := by
  rfl

/-- The same run but on a process with `LOCAL_RANK = 1` of a two-shard,
two-process world: all prints are swallowed by the devnull redirection. -/
def testEnvR1 : Env := { testEnv with
  LOCAL_RANK := some 1
  WORLD_SIZE := some 2
  glob_pth := fun _ => ["a.pth", "b.pth"] }

/-- The effect trace of `main testEnvR1 testArgs`: no console print, yet the
final `writeFile` still happens on this rank-1 process. -/
def testTrR1 : List Effect :=
  [Effect.printNull "local_rank is 1",
   Effect.printNull "world_size is 2",
   Effect.printNull "Loading",
   Effect.printNull "Loaded",
   Effect.printNull "data name: dn",
   Effect.printNull "len of data: 2",
   Effect.printNull "Model name: 7B",
   Effect.genCall [['x']] 100 0 1,
   Effect.printNull "instance_id: [a]",
   Effect.printNull "Result (including output): x",
   Effect.genCall [['y', '\n', 'z']] 100 0 1,
   Effect.writeFile
     "/storage1/chenguangwang/Active/llama_system/fs_back/dn_0_5_samples0.json"
     [("a", ['y'])]]

theorem main_testEnvR1_eq :
    main testEnvR1 testArgs = Except.ok (testTrR1, testD) := by
  rfl

/-- An environment in which neither `LOCAL_RANK` nor `WORLD_SIZE` is set. -/
def envNone : Env := { testEnv with
  LOCAL_RANK := none
  WORLD_SIZE := none }

/-! ### The claims -/

/-- C1: every generated output is stored truncated at (and excluding) the
first newline when one is present, unchanged otherwise; consequently every
value stored in `output_dict` is newline-free. -/
theorem C1_truncate_first_newline :
    (∀ out : List Char, '\n' ∈ out →
      truncNewline out = out.takeWhile (fun ch => ch ≠ '\n')) ∧
    (∀ out : List Char, '\n' ∉ out → truncNewline out = out) ∧
    (∀ (env : Env) (a : Args) (tr : List Effect) (d : Dict),
      main env a = Except.ok (tr, d) → ∀ q ∈ d, '\n' ∉ q.2) := by
  refine ⟨fun out _ => truncNewline_eq_takeWhile out,
    fun out h => truncNewline_of_not_mem h, ?_⟩
  intro env a tr d hmain q hq
  obtain ⟨loopTr, i2, hloop, _⟩ := main_ok_cases hmain
  obtain ⟨_, _, _, hd⟩ := runLoop_ok hloop
  rw [foldl_dictStep_eq_insFold] at hd
  subst hd
  rcases mem_insFold _ _ _ hq with h2 | h2
  · exact absurd h2 (List.not_mem_nil q)
  · obtain ⟨out, hout⟩ := snd_pairsOf_truncated _ _ _ _ _ _ _ h2
    rw [hout]
    exact newline_not_mem_truncNewline out

theorem C1_truncate_first_newline_witness :
    truncNewline ['y', '\n', 'z'] =
      ['y', '\n', 'z'].takeWhile (fun ch => ch ≠ '\n') ∧
    truncNewline ['x'] = ['x'] ∧
    '\n' ∉ (("a", ['y']) : String × List Char).2 :=
  ⟨C1_truncate_first_newline.1 ['y', '\n', 'z'] (by decide),
   C1_truncate_first_newline.2.1 ['x'] (by decide),
   C1_truncate_first_newline.2.2 testEnv testArgs testTr testD main_testEnv_eq
     ("a", ['y']) (by decide)⟩

/-- C2: assuming the external contract that `isolate_output` yields one
output per prompt, the final dict has exactly one entry per distinct instance
id seen across all batches, and the value stored under an id is from the last
occurrence of that id in batch iteration order. -/
theorem C2_unique_ids_last_occurrence (env : Env) (a : Args) (tr : List Effect)
    (d : Dict) (hmain : main env a = Except.ok (tr, d))
    (hlen : ∀ (ps : List (List Char)) (mnt : Nat) (t p : ℚ),
      (env.isolate_output ps (env.generate ps mnt t p)).length = ps.length) :
    (d.map Prod.fst).Nodup ∧
    (∀ k : String, k ∈ d.map Prod.fst ↔
      k ∈ concatAll ((batchesOf env a).map (fun b => b.map Record.instance_id))) ∧
    (∀ k : String, lookup d k =
      ((pairsOf env.generate env.isolate_output a.max_new_tokens a.temperature
          a.top_p (batchesOf env a)).reverse.find?
        (fun q => q.1 = k)).map Prod.snd) := by
  obtain ⟨loopTr, i2, hloop, _⟩ := main_ok_cases hmain
  obtain ⟨_, _, _, hd⟩ := runLoop_ok hloop
  rw [foldl_dictStep_eq_insFold] at hd
  subst hd
  have hkeys : (pairsOf env.generate env.isolate_output a.max_new_tokens
      a.temperature a.top_p (batchesOf env a)).map Prod.fst =
      concatAll ((batchesOf env a).map (fun b => b.map Record.instance_id)) := by
    rw [pairsOf, map_concatAll, List.map_map]
    have hfun : (List.map Prod.fst ∘ pairsOfBatch env.generate env.isolate_output
        a.max_new_tokens a.temperature a.top_p) =
        fun b => b.map Record.instance_id := by
      funext b
      exact map_fst_pairsOfBatch _ _ _ _ _ b (hlen _ _ _ _)
    rw [hfun]
  refine ⟨nodup_keys_insFold _ [] (by simp), fun k => ?_, fun k => ?_⟩
  · rw [mem_keys_insFold, hkeys]
    simp
  · rw [lookup_insFold]
    have hnil : lookup [] k = none := rfl
    rw [hnil, or_some_none]

theorem C2_unique_ids_last_occurrence_witness :
    (testD.map Prod.fst).Nodup ∧
    ("a" ∈ testD.map Prod.fst ↔
      "a" ∈ concatAll ((batchesOf testEnv testArgs).map
        (fun b => b.map Record.instance_id))) ∧
    lookup testD "a" =
      ((pairsOf testEnv.generate testEnv.isolate_output testArgs.max_new_tokens
          testArgs.temperature testArgs.top_p
          (batchesOf testEnv testArgs)).reverse.find?
        (fun q => q.1 = "a")).map Prod.snd :=
  have h := C2_unique_ids_last_occurrence testEnv testArgs testTr testD
    main_testEnv_eq (fun ps mnt t p => rfl)
  ⟨h.1, h.2.1 "a", h.2.2 "a"⟩

/-- C3: `load` fails with an `AssertionError` if and only if the number of
`*.pth` shard files differs from `world_size`; with equal counts the
assertion passes (the only explicit error check the script makes). -/
theorem C3_shard_count_assertion (pth_files : List String) (lr ws : Int) :
    (∃ msg, load pth_files lr ws = Except.error (Err.assertionError msg)) ↔
      ws ≠ (pth_files.length : Int) := by
  unfold load
  dsimp only
  by_cases hw : ws = ((sortStrings pth_files).length : Int)
  · rw [if_pos hw]
    constructor
    · intro ⟨msg, hmsg⟩
      exfalso
      cases hidx : pyIndex (sortStrings pth_files) lr with
      | some c =>
        rw [hidx] at hmsg
        exact absurd hmsg (by simp)
      | none =>
        rw [hidx] at hmsg
        simp at hmsg
    · intro hne
      exfalso
      rw [length_sortStrings] at hw
      exact hne hw
  · rw [if_neg hw]
    constructor
    · intro _
      rw [length_sortStrings] at hw
      exact hw
    · intro _
      exact ⟨_, rfl⟩

theorem C3_shard_count_assertion_witness :
    ∃ msg, load ["a.pth"] 0 2 = Except.error (Err.assertionError msg) :=
  (C3_shard_count_assertion ["a.pth"] 0 2).mpr (by decide)

/-- C4 counterexample: on a process with rank 1 (> 0), a successful run still
performs exactly one file write — the unconditional `json.dump` of
lines 144-145 — refuting "no file write for ranks > 0". -/
theorem C4_counterexample_rank1_writes :
    (setup_model_parallel testEnvR1).1 > 0 ∧
    (main testEnvR1 testArgs).toOption.map
      (fun x => x.1.countP isWriteFile) = some 1 := by
  constructor
  · decide
  · rw [main_testEnvR1_eq]
    decide

/-- C4 (amended): a rank `> 0` process performs no console output (all its
prints are swallowed by the devnull redirection), but the output-file write is
performed by every rank, including ranks `> 0`: every successful run contains
exactly one `writeFile` effect. -/
theorem C4_rank_positive_silenced (env : Env) (a : Args) (tr : List Effect)
    (d : Dict) (hmain : main env a = Except.ok (tr, d))
    (hrank : (setup_model_parallel env).1 > 0) :
    tr.filter isConsolePrint = [] ∧ tr.countP isWriteFile = 1 := by
  obtain ⟨loopTr, i2, hloop, htr⟩ := main_ok_cases hmain
  obtain ⟨w1, _, w3, _⟩ := runLoop_ok hloop
  subst htr
  constructor
  · rw [List.filter_append, List.filter_append,
      filter_preTraceOf_isConsolePrint env a hrank, w3 (by simp [hrank])]
    simp
  · rw [List.countP_eq_length_filter, List.filter_append, List.filter_append,
      filter_preTraceOf_isWriteFile, w1]
    simp

theorem C4_rank_positive_silenced_witness :
    testTrR1.filter isConsolePrint = [] ∧ testTrR1.countP isWriteFile = 1 :=
  C4_rank_positive_silenced testEnvR1 testArgs testTrR1 testD
    main_testEnvR1_eq (by decide)

/-- C5: in every successful run the final `writeFile` of the accumulated dict
is the last effect of the trace, nothing before it writes the output file, and
all `|batches|` generation calls precede it: serialization happens exactly
once, only after the whole loop. -/
theorem C5_single_write_after_loop (env : Env) (a : Args) (tr : List Effect)
    (d : Dict) (hmain : main env a = Except.ok (tr, d)) :
    tr.getLast? = some (Effect.writeFile (outputPath env a) d) ∧
    tr.dropLast.countP isWriteFile = 0 ∧
    tr.dropLast.countP isGenCall = (batchesOf env a).length := by
  obtain ⟨loopTr, i2, hloop, htr⟩ := main_ok_cases hmain
  obtain ⟨w1, w2, _, _⟩ := runLoop_ok hloop
  subst htr
  refine ⟨List.getLast?_concat _, ?_, ?_⟩
  · rw [List.dropLast_concat, List.countP_eq_length_filter, List.filter_append,
      filter_preTraceOf_isWriteFile, w1]
    rfl
  · rw [List.dropLast_concat, List.countP_eq_length_filter, List.filter_append,
      filter_preTraceOf_isGenCall, w2]
    simp

theorem C5_single_write_after_loop_witness :
    testTr.getLast? =
      some (Effect.writeFile (outputPath testEnv testArgs) testD) ∧
    testTr.dropLast.countP isWriteFile = 0 ∧
    testTr.dropLast.countP isGenCall = (batchesOf testEnv testArgs).length :=
  C5_single_write_after_loop testEnv testArgs testTr testD main_testEnv_eq

/-- C6: the one file write of a successful run goes to the hardcoded output
directory, with the filename
`{data_name}_{p_id}_{k}_samples{num_instances}.json`. -/
theorem C6_output_filename (env : Env) (a : Args) (tr : List Effect) (d : Dict)
    (hmain : main env a = Except.ok (tr, d)) :
    tr.filter isWriteFile =
      [Effect.writeFile (output_dir ++ "/" ++ dataNameOf env a ++ "_" ++
        toString a.p_id ++ "_" ++ toString a.k ++ "_samples" ++
        toString a.num_instances ++ ".json") d] := by
  obtain ⟨loopTr, i2, hloop, htr⟩ := main_ok_cases hmain
  obtain ⟨w1, _, _, _⟩ := runLoop_ok hloop
  subst htr
  rw [List.filter_append, List.filter_append, filter_preTraceOf_isWriteFile, w1]
  simp [outputPath]

theorem C6_output_filename_witness :
    testTr.filter isWriteFile =
      [Effect.writeFile (output_dir ++ "/" ++ dataNameOf testEnv testArgs ++
        "_" ++ toString testArgs.p_id ++ "_" ++ toString testArgs.k ++
        "_samples" ++ toString testArgs.num_instances ++ ".json") testD] :=
  C6_output_filename testEnv testArgs testTr testD main_testEnv_eq

/-- C8: in every successful run the generation entry point is invoked exactly
once per batch, in batch order, each time with that batch's prompt list and
the CLI `max_new_tokens`, `temperature` and `top_p`; the sequential trace
order means a batch's call completes before the next batch is touched. -/
theorem C8_generate_once_per_batch (env : Env) (a : Args) (tr : List Effect)
    (d : Dict) (hmain : main env a = Except.ok (tr, d)) :
    tr.filter isGenCall =
      (batchesOf env a).map
        (fun b => Effect.genCall (b.map Record.input) a.max_new_tokens
          a.temperature a.top_p) := by
  obtain ⟨loopTr, i2, hloop, htr⟩ := main_ok_cases hmain
  obtain ⟨_, w2, _, _⟩ := runLoop_ok hloop
  subst htr
  rw [List.filter_append, List.filter_append, filter_preTraceOf_isGenCall, w2]
  simp

theorem C8_generate_once_per_batch_witness :
    testTr.filter isGenCall =
      (batchesOf testEnv testArgs).map
        (fun b => Effect.genCall (b.map Record.input) testArgs.max_new_tokens
          testArgs.temperature testArgs.top_p) :=
  C8_generate_once_per_batch testEnv testArgs testTr testD main_testEnv_eq

/-- C7: `MODEL_SIZE` is display-only.  Two runs that differ only in the value
of `MODEL_SIZE` produce the same output dict and perform the same file
writes (only the text of one printed line differs). -/
theorem C7_model_size_display_only (env : Env) (a : Args) (m : String) :
    (main { env with MODEL_SIZE := m } a).map Prod.snd =
      (main env a).map Prod.snd ∧
    (main { env with MODEL_SIZE := m } a).map
        (fun x => x.1.filter isWriteFile) =
      (main env a).map (fun x => x.1.filter isWriteFile) := by
  have hsu : setup_model_parallel { env with MODEL_SIZE := m } =
      setup_model_parallel env := rfl
  have hglob : ({ env with MODEL_SIZE := m } : Env).glob_pth = env.glob_pth :=
    rfl
  have hgen : ({ env with MODEL_SIZE := m } : Env).generate = env.generate :=
    rfl
  have hiso : ({ env with MODEL_SIZE := m } : Env).isolate_output =
      env.isolate_output := rfl
  have hbat : batchesOf { env with MODEL_SIZE := m } a = batchesOf env a := rfl
  have hout : outputPath { env with MODEL_SIZE := m } a = outputPath env a :=
    rfl
  unfold main
  dsimp only
  rw [hsu, hglob, hgen, hiso, hbat, hout]
  cases hload : load (env.glob_pth a.ckpt_dir) (setup_model_parallel env).1
      (setup_model_parallel env).2 with
  | error e => exact ⟨rfl, rfl⟩
  | ok ckpt =>
    dsimp only
    cases hloop : runLoop env.generate env.isolate_output
        (decide ((setup_model_parallel env).1 > 0)) a.max_new_tokens
        a.temperature a.top_p (batchesOf env a) 0 [] with
    | error e => exact ⟨rfl, rfl⟩
    | ok r =>
      obtain ⟨loopTr, i2, dct⟩ := r
      dsimp only [Except.map]
      refine ⟨rfl, ?_⟩
      rw [Except.ok.injEq]
      rw [List.filter_append, List.filter_append, List.filter_append,
        List.filter_append, filter_preTraceOf_isWriteFile,
        filter_preTraceOf_isWriteFile]

/-- C9: the `prepend_text` CLI argument is dead: line 98 overwrites it with
`get_prompt_map()[p_id]` before any use, so two runs differing only in
`prepend_text` build the same batches and produce identical results. -/
theorem C9_prepend_text_no_effect (env : Env) (a : Args) (s : List Char) :
    batchesOf env { a with prepend_text := s } = batchesOf env a ∧
    main env { a with prepend_text := s } = main env a :=
  ⟨rfl, rfl⟩

/-- C10: an unset `LOCAL_RANK` or `WORLD_SIZE` yields `-1` rather than a
failure; once the shard-count assertion holds (`world_size` = number of
shards), `checkpoints[local_rank]` cannot raise an `IndexError` for any
`local_rank` between `-world_size` and `world_size - 1`, and `local_rank = -1`
selects the last shard in sorted order. -/
theorem C10_unset_rank_negative_indexing :
    (∀ env : Env, env.LOCAL_RANK = none → (setup_model_parallel env).1 = -1) ∧
    (∀ env : Env, env.WORLD_SIZE = none → (setup_model_parallel env).2 = -1) ∧
    (∀ (pth_files : List String) (lr : Int),
      -(pth_files.length : Int) ≤ lr → lr < (pth_files.length : Int) →
      (load pth_files lr (pth_files.length : Int)).isOk = true) ∧
    (∀ pth_files : List String, pth_files ≠ [] →
      ∃ ckpt, load pth_files (-1) (pth_files.length : Int) = Except.ok ckpt ∧
        (sortStrings pth_files).getLast? = some ckpt) := by
  refine ⟨fun env h => by simp [setup_model_parallel, h],
    fun env h => by simp [setup_model_parallel, h], ?_, ?_⟩
  · intro pth_files lr h1 h2
    unfold load
    dsimp only
    rw [if_pos (by rw [length_sortStrings])]
    have hs : (pyIndex (sortStrings pth_files) lr).isSome = true := by
      apply pyIndex_isSome
      · rw [length_sortStrings]
        exact h1
      · rw [length_sortStrings]
        exact h2
    obtain ⟨c, hc⟩ := Option.isSome_iff_exists.mp hs
    rw [hc]
    rfl
  · intro pth_files h
    unfold load
    dsimp only
    rw [if_pos (by rw [length_sortStrings])]
    have hne : sortStrings pth_files ≠ [] := by
      intro hnil
      apply h
      rw [← List.length_eq_zero, ← length_sortStrings, hnil]
      rfl
    rw [pyIndex_neg_one _ hne]
    have hlast : (sortStrings pth_files).getLast?.isSome = true := by
      rw [List.getLast?_isSome]
      exact hne
    obtain ⟨c, hc⟩ := Option.isSome_iff_exists.mp hlast
    rw [hc]
    exact ⟨c, rfl, rfl⟩

theorem C10_unset_rank_negative_indexing_witness :
    (setup_model_parallel envNone).1 = -1 ∧
    (setup_model_parallel envNone).2 = -1 ∧
    (load ["b.pth", "a.pth"] (-1)
      ((["b.pth", "a.pth"] : List String).length : Int)).isOk = true ∧
    (∃ ckpt, load ["b.pth", "a.pth"] (-1)
        ((["b.pth", "a.pth"] : List String).length : Int) = Except.ok ckpt ∧
      (sortStrings ["b.pth", "a.pth"]).getLast? = some ckpt) :=
  ⟨C10_unset_rank_negative_indexing.1 envNone rfl,
   C10_unset_rank_negative_indexing.2.1 envNone rfl,
   C10_unset_rank_negative_indexing.2.2.1 ["b.pth", "a.pth"] (-1)
     (by decide) (by decide),
   C10_unset_rank_negative_indexing.2.2.2 ["b.pth", "a.pth"] (by decide)⟩

end HelmLlama
